import Mathlib

/-!
# Verification of the Automate-DeepClean parameter-cleansing core

Shallow embedding of the repository's rule/action framework and
orchestration logic:

* `ParameterRules` embeds `src/Rules/rules.py` (predicate rules over a
  single parameter record).
* `PrefixRemovalAction`, `MissingValueReportAction` and
  `DefaultValueMutationAction` embed `src/Rules/actions.py`.
* `automate_function` embeds the orchestration in `src/main.py`.
* The traversal rule set embeds `get_default_traversal_func` /
  `get_data_traversal_rules` from `src/main.py` and
  `src/Rules/traversal.py`.

Python conventions are made explicit: a `str` is falsy iff empty;
`dict.get` returns `None` for an absent key, so an absent and a `None`
value are both modelled as `Option.none`; `s.startswith(p)` is
codepoint-exact prefix testing, modelled on the character list of the
string; a Python `dict` is modelled as an association list with the
keys in insertion order.
-/

namespace DeepClean

/-- Python `s.startswith(pre)`: codepoint-exact, case-sensitive. -/
def pyStartswith (s pre : String) : Bool :=
  pre.toList.isPrefixOf s.toList

/-- Python `sub in s` for strings: substring containment check. -/
def infixCheck (needle : List Char) : List Char → Bool
  | [] => needle.isEmpty
  | c :: rest => needle.isPrefixOf (c :: rest) || infixCheck needle rest

/-- Python `sub in s` on strings, via `infixCheck` on the codepoints. -/
def strContains (s sub : String) : Bool :=
  infixCheck sub.toList s.toList

/--
A parameter record (`Parameter` in the spec's data model): the fields
the repository's rules and actions read.  `value = none` models an
absent or `None` value (indistinguishable through `dict.get`);
`applicationInternalName = none` models the secondary key being absent
on the parameter (its access raises `KeyError` in the source).
-/
structure Parameter where
  name : String
  value : Option String
  applicationInternalName : Option String
  speckle_type : String
deriving DecidableEq, Repr

/--
The `parameters` member of a node, as `PrefixRemovalAction.apply` sees
it: either a `Base` whose `__dict__` maps opaque keys to parameter
records (insertion-ordered association list), or some other shape
(the `isinstance(parent_object["parameters"], Base)` check fails).
-/
inductive ParamCollection where
  | base (entries : List (String × Parameter))
  | other
deriving DecidableEq, Repr

/-- The owning node (`parent_object` in `src/Rules/actions.py`). -/
structure SpeckleObject where
  id : String
  parameters : ParamCollection
deriving DecidableEq, Repr

/-- Python `key in dict` on the embedded collection entries. -/
def containsKey (g : String) (entries : List (String × Parameter)) : Bool :=
  entries.any (fun e => e.1 == g)

/-- Python `dict.pop(key)` on the embedded collection entries: the
entry under `g` is dropped, all other entries keep their order. -/
def removeKey (g : String) (entries : List (String × Parameter)) :
    List (String × Parameter) :=
  entries.filter (fun e => e.1 != g)

/-- `defaultdict(list)` write `m[nid].append(nm)`: appends to the list
under `nid`, creating the key (at the end, insertion order) if new. -/
def addAffected (m : List (String × List String)) (nid nm : String) :
    List (String × List String) :=
  match m with
  | [] => [(nid, [nm])]
  | (k, v) :: rest =>
      if k = nid then (k, v ++ [nm]) :: rest
      else (k, v) :: addAffected rest nid nm

/-- `defaultdict(list)` read: the list under `nid`, `[]` if absent. -/
def lookupAffected (m : List (String × List String)) (nid : String) :
    List String :=
  match m with
  | [] => []
  | (k, v) :: rest => if k = nid then v else lookupAffected rest nid

/-! ## `src/Rules/rules.py` — ParameterRules -/

namespace ParameterRules

/-- `ParameterRules.speckle_type_rule`: exact equality of the
classification tag. -/
def speckle_type_rule (desired_type : String) : Parameter → Bool :=
  fun parameter => parameter.speckle_type == desired_type

/-- `ParameterRules.forbidden_prefix_rule`:
`parameter.name.startswith(given_prefix)`. -/
def forbidden_prefix_rule (givenPrefix : String) : Parameter → Bool :=
  fun parameter => pyStartswith parameter.name givenPrefix

/-- `ParameterRules.has_missing_value`: `not parameter.get("value")` —
true iff the value is absent/`None` (here `none`) or the empty string. -/
def has_missing_value (parameter : Parameter) : Bool :=
  match parameter.value with
  | none => true
  | some s => s == ""

/-- `ParameterRules.has_default_value`:
`parameter.get("value") == "Default"`. -/
def has_default_value (parameter : Parameter) : Bool :=
  parameter.value == some "Default"

end ParameterRules

/-! ## `src/Rules/actions.py` — PrefixRemovalAction -/

/--
`PrefixRemovalAction`: the forbidden name marker given at construction
plus the inherited `affected_parameters` accumulator
(`defaultdict(list)`: node id, in insertion order, to the list of
affected parameter names, in append order).
-/
structure PrefixRemovalAction where
  forbiddenPrefix : String
  affected_parameters : List (String × List String)
deriving DecidableEq, Repr

namespace PrefixRemovalAction

/--
`PrefixRemovalAction.apply(parameter, parent_object)` from
`src/Rules/actions.py`:

* early return when `param_name` is falsy (empty) or does not start
  with the forbidden marker;
* only acts when `parent_object["parameters"]` is a `Base`;
* reads `applicationInternalName` (a `KeyError`, i.e. `none`, is
  silently swallowed by the `try`/`except`);
* pops the entry under that secondary key from the collection when
  present, and then appends `param_name` under `parent_object["id"]`.

Returns the updated action state together with the updated owner.
-/
def apply (action : PrefixRemovalAction) (parameter : Parameter)
    (parent_object : SpeckleObject) : PrefixRemovalAction × SpeckleObject :=
  let param_name := parameter.name
  if param_name = "" ∨ pyStartswith param_name action.forbiddenPrefix = false then
    (action, parent_object)
  else
    match parent_object.parameters with
    | ParamCollection.base entries =>
        match parameter.applicationInternalName with
        | some application_name =>
            if containsKey application_name entries then
              ({ action with
                  affected_parameters :=
                    addAffected action.affected_parameters parent_object.id
                      param_name },
               { parent_object with
                  parameters :=
                    ParamCollection.base (removeKey application_name entries) })
            else (action, parent_object)
        | none => (action, parent_object)
    | ParamCollection.other => (action, parent_object)

end PrefixRemovalAction

/--
One `attach_info_to_objects` call received by the report sink
(`AutomationContext` in the source): a category tag, the ids of the
affected objects, and the human-readable message.
-/
structure InfoMessage where
  category : String
  object_ids : List String
  message : String
deriving DecidableEq, Repr

/-- The unique affected names across all nodes of an accumulator:
`set(param for params in affected.values() for param in params)`.
Python's `set` iteration order is unspecified; it is modelled here by
`List.dedup`, and no theorem below depends on the order. -/
def uniqueNames (m : List (String × List String)) : List String :=
  ((m.map Prod.snd).flatten).dedup

/--
`PrefixRemovalAction.report(automate_context)`: does nothing when the
accumulator is empty, otherwise submits exactly one
`Removed_Parameters` message naming the unique removed parameters,
attached to the affected object ids.  The list of sink calls made by
`report` is returned.
-/
def PrefixRemovalAction.report (action : PrefixRemovalAction) :
    List InfoMessage :=
  if action.affected_parameters = [] then []
  else
    [{ category := "Removed_Parameters",
       object_ids := action.affected_parameters.map Prod.fst,
       message := "The following parameters were removed: " ++
         String.intercalate ", " (uniqueNames action.affected_parameters) }]

/-! ## `src/Rules/actions.py` — the other two actions -/

/-- `MissingValueReportAction`: only the inherited accumulator. -/
structure MissingValueReportAction where
  affected_parameters : List (String × List String)
deriving DecidableEq, Repr

namespace MissingValueReportAction

/-- `MissingValueReportAction.apply`: record the parameter's name under
the owner's id whenever `has_missing_value` holds; no mutation. -/
def apply (action : MissingValueReportAction) (parameter : Parameter)
    (parent_object : SpeckleObject) : MissingValueReportAction :=
  if ParameterRules.has_missing_value parameter then
    { affected_parameters :=
        addAffected action.affected_parameters parent_object.id parameter.name }
  else action

/-- `MissingValueReportAction.report`: one `Missing_Values` message
listing the unique affected names (no empty-accumulator early return in
the source). -/
def report (action : MissingValueReportAction) : List InfoMessage :=
  [{ category := "Missing_Values",
     object_ids := action.affected_parameters.map Prod.fst,
     message := "The following parameters have missing values: " ++
       String.intercalate ", " (uniqueNames action.affected_parameters) }]

end MissingValueReportAction

/-- `DefaultValueMutationAction`: the replacement value plus the
inherited accumulator. -/
structure DefaultValueMutationAction where
  new_value : String
  affected_parameters : List (String × List String)
deriving DecidableEq, Repr

namespace DefaultValueMutationAction

/-- `DefaultValueMutationAction.__init__(new_value)`:
`new_value or "Updated Value"` — `None` and the falsy empty string both
fall back to the default. -/
def init (new_value : Option String) : DefaultValueMutationAction :=
  { new_value :=
      match new_value with
      | none => "Updated Value"
      | some s => if s = "" then "Updated Value" else s,
    affected_parameters := [] }

/-- `DefaultValueMutationAction.apply`: when `has_default_value` holds,
overwrite `parameter["value"]` with the replacement value in place and
record the parameter's name under the owner's id.  Returns the updated
action state and the (possibly rewritten) parameter. -/
def apply (action : DefaultValueMutationAction) (parameter : Parameter)
    (parent_object : SpeckleObject) :
    DefaultValueMutationAction × Parameter :=
  if ParameterRules.has_default_value parameter then
    ({ action with
        affected_parameters :=
          addAffected action.affected_parameters parent_object.id
            parameter.name },
     { parameter with value := some action.new_value })
  else (action, parameter)

/-- `DefaultValueMutationAction.report`: one `Updated_Defaults` message
listing the unique affected names. -/
def report (action : DefaultValueMutationAction) : List InfoMessage :=
  [{ category := "Updated_Defaults",
     object_ids := action.affected_parameters.map Prod.fst,
     message := "The following parameters were updated from default values: " ++
       String.intercalate ", " (uniqueNames action.affected_parameters) }]

end DefaultValueMutationAction

/-! ## One pass of `PrefixRemovalAction` over a node and over a graph

A pass applies the action to every parameter of a visited node's
collection.  Per §5 of the design, the entry list is snapshotted before
iterating (removal mid-enumeration must not disturb the enumeration),
so the fold runs over the initial entries while the live collection
evolves.
-/

/-- One pass of the action over a single node: `apply` is called for
each parameter of the snapshotted collection against the live node. -/
def runPass (action : PrefixRemovalAction) (node : SpeckleObject) :
    PrefixRemovalAction × SpeckleObject :=
  match node.parameters with
  | ParamCollection.base entries =>
      entries.foldl (fun s e => s.1.apply e.2 s.2) (action, node)
  | ParamCollection.other => (action, node)

/-- One pass over a graph, presented as its visited nodes in traversal
order; the action state threads through the whole pass. -/
def runPassGraph (action : PrefixRemovalAction) :
    List SpeckleObject → PrefixRemovalAction × List SpeckleObject
  | [] => (action, [])
  | n :: rest =>
      let s := runPass action n
      let t := runPassGraph s.1 rest
      (t.1, s.2 :: t.2)

/-! ## `src/main.py` — orchestration (`automate_function`)

`automate_function` receives the triggering version's root object,
traverses it, pops prefixed dynamic member names from each visited
node's `parameters` member, and then reports.  The traversal result is
modelled as the list of visited nodes in traversal order; the external
collaborators appear as an environment (the received nodes, the id
`create_new_version_in_project` would return) and as an emitted event
trace.
-/

/-- A visited node as `automate_function` sees it: its id and, when it
has a non-`None` `parameters` member, that member's dynamic member
names in order (`get_dynamic_member_names`).  `none` covers both a
missing attribute (`hasattr` false) and `parameters is None`. -/
structure MNode where
  id : String
  parameters : Option (List String)
deriving DecidableEq, Repr

/-- One call made by `automate_function` on its collaborators. -/
inductive RunEvent where
  | receiveVersion
  | createVersion
  | attachInfo (category : String) (object_ids : List String)
      (message : String)
  | markSuccess (message : String)
  | markFailed (message : String)
deriving DecidableEq, Repr

/-- The external collaborators of one run: what `receive_version`
yields (as its visited nodes) and what
`create_new_version_in_project` returns. -/
structure MainEnv where
  root_nodes : List MNode
  new_version_id : Option String
deriving DecidableEq, Repr

/-- The inner loop of `automate_function` on one visited node: names
(snapshotted by `get_dynamic_member_names`) starting with the marker
are popped from `parameters` and recorded in `cleansed_objects` under
the node's id, one append per name, in order. -/
def cleanseNode (pre : String) (n : MNode)
    (cleansed : List (String × List String)) :
    MNode × List (String × List String) :=
  match n.parameters with
  | none => (n, cleansed)
  | some names =>
      ({ n with
          parameters := some (names.filter (fun nm => !(pyStartswith nm pre))) },
       (names.filter (fun nm => pyStartswith nm pre)).foldl
         (fun m nm => addAffected m n.id nm) cleansed)

/-- The traversal loop of `automate_function` over all visited nodes,
threading the `cleansed_objects` accumulator. -/
def cleansePass (pre : String) :
    List MNode → List (String × List String) →
    List MNode × List (String × List String)
  | [], cleansed => ([], cleansed)
  | n :: rest, cleansed =>
      let s := cleanseNode pre n cleansed
      let t := cleansePass pre rest s.2
      (s.1 :: t.1, t.2)

/--
`automate_function(automate_context, function_inputs)` from
`src/main.py`, as a function of the configured marker string and the
collaborator environment, returning the emitted event trace and the
final state of the visited nodes:

* an empty `forbidden_parameter_prefix` fails the run immediately
  ("No prefix has been set.") — nothing is received or touched;
* otherwise the version is received and traversed, prefixed parameter
  names are popped, and:
  * nothing cleansed → `mark_run_success("No parameters were cleansed.")`;
  * else one `create_new_version_in_project` call; `None` →
    `mark_run_failed("Failed to create new version.")`;
  * else one `Cleansed_parameters` info message on the cleansed ids and
    `mark_run_success("Successfully cleansed parameters.")`.
-/
def automate_function (forbiddenParameterPrefix : String) (env : MainEnv) :
    List RunEvent × List MNode :=
  if forbiddenParameterPrefix = "" then
    ([RunEvent.markFailed "No prefix has been set."], env.root_nodes)
  else
    let p := cleansePass forbiddenParameterPrefix env.root_nodes []
    if p.2 = [] then
      ([RunEvent.receiveVersion,
        RunEvent.markSuccess "No parameters were cleansed."], p.1)
    else
      match env.new_version_id with
      | none =>
          ([RunEvent.receiveVersion, RunEvent.createVersion,
            RunEvent.markFailed "Failed to create new version."], p.1)
      | some _ =>
          ([RunEvent.receiveVersion, RunEvent.createVersion,
            RunEvent.attachInfo "Cleansed_parameters" (p.2.map Prod.fst)
              ("The following parameters were cleansed: " ++
                String.intercalate ", " (uniqueNames p.2)),
            RunEvent.markSuccess "Successfully cleansed parameters."], p.1)

/-! ## Traversal rule set (`src/Rules/traversal.py`, `src/main.py`) -/

/-- A node as the traversal rules see it: its type tag and its
dynamically enumerable members.  Only a member value's truthiness
matters to the rules, so each member carries the truthiness of its
value (`false` for `None`, empty containers, empty strings, …). -/
structure TravNode where
  speckle_type : String
  members : List (String × Bool)
deriving DecidableEq, Repr

/-- `getattr(o, name, None)` followed by Python truthiness: the
member's truthiness when present, falsy (`None`) when absent. -/
def getattrTruthy (o : TravNode) (nm : String) : Bool :=
  (o.members.lookup nm).getD false

/-- A traversal rule: the applicability conditions and the child-name
selector, as handed to specklepy's `TraversalRule`. -/
structure TraversalRule where
  conditions : List (TravNode → Bool)
  selector : TravNode → List String

/-- `{"displayValue", "@displayValue"}` (a Python set of two names). -/
def display_value_property_aliases : List String :=
  ["displayValue", "@displayValue"]

/-- `{"elements", "@elements"}` (a Python set of two names). -/
def elements_property_aliases : List String :=
  ["elements", "@elements"]

/-- The `display_value_rule` of `get_default_traversal_func` /
`get_data_traversal_rules`: applies when some display-value alias is
truthy on the node and `"Geometry" in o.speckle_type`; selects the
element aliases. -/
def display_value_rule : TraversalRule :=
  { conditions :=
      [fun o => display_value_property_aliases.any (fun nm => getattrTruthy o nm),
       fun o => strContains o.speckle_type "Geometry"],
    selector := fun _ => elements_property_aliases }

/-- The catch-all `default_rule`: always applicable, selects every
member name of the node (`o.get_member_names()`). -/
def default_rule : TraversalRule :=
  { conditions := [fun _ => true],
    selector := fun o => o.members.map Prod.fst }

/-- The rule list handed to `GraphTraversal`, in priority order. -/
def get_default_traversal_func : List TraversalRule :=
  [display_value_rule, default_rule]

/-- All applicability conditions of a rule hold on the node. -/
def ruleMatches (r : TraversalRule) (o : TravNode) : Bool :=
  r.conditions.all (fun c => c o)

/-- Modelled from the spec: the rule dispatch of specklepy's
`GraphTraversal` (an external collaborator, not part of `src/`) —
"Rules are evaluated in priority order; the first rule whose every
applicability predicate holds wins for that node — no further rules
are tried." -/
def selectRule : List TraversalRule → TravNode → Option TraversalRule
  | [], _ => none
  | r :: rest, o => if ruleMatches r o then some r else selectRule rest o

/-- The member names the traversal descends into at a node: the
winning rule's selector output. -/
def selectedMembers (rules : List TraversalRule) (o : TravNode) :
    List String :=
  match selectRule rules o with
  | some r => r.selector o
  | none => []

/-! ## Derived step functions used by the idempotence analysis

During one pass over a node, the graph part of `apply` depends only on
the forbidden marker, not on the accumulator, so the evolution of the
collection entries can be read off as a fold of `stepEntries`.
-/

/-- The effect of one `apply` call on the entries of a `Base`-shaped
collection (the graph component of `PrefixRemovalAction.apply`). -/
def stepEntries (pre : String) (entries : List (String × Parameter))
    (p : Parameter) : List (String × Parameter) :=
  if p.name = "" ∨ pyStartswith p.name pre = false then entries
  else
    match p.applicationInternalName with
    | some g => if containsKey g entries then removeKey g entries else entries
    | none => entries

/-- The entries after one pass: `apply` folded over the snapshot of the
collection while the live collection evolves. -/
def passEntries (pre : String) (start : List (String × Parameter))
    (snapshot : List (String × Parameter)) : List (String × Parameter) :=
  snapshot.foldl (fun es e => stepEntries pre es e.2) start

/-- Is this event a run-outcome signal (`mark_run_success` or
`mark_run_failed`)? -/
def isRunMark : RunEvent → Bool
  | RunEvent.markSuccess _ => true
  | RunEvent.markFailed _ => true
  | _ => false

/-! ## Concrete sample data -/

/-- The parameter of the spec's end-to-end scenario. -/
def ifcParameter : Parameter :=
  { name := "IFC_Category", value := some "Wall",
    applicationInternalName := some "guid-1",
    speckle_type := "Objects.BuiltElements.Revit.Parameter" }

/-- The root node of the spec's end-to-end scenario: its collection
holds `ifcParameter` under the key `"guid-1"`. -/
def ifcNode : SpeckleObject :=
  { id := "node-1",
    parameters := ParamCollection.base [("guid-1", ifcParameter)] }

/-- A fresh `PrefixRemovalAction("IFC_")`. -/
def ifcAction : PrefixRemovalAction :=
  { forbiddenPrefix := "IFC_", affected_parameters := [] }

/-- A parameter whose secondary key is absent. -/
def orphanParameter : Parameter :=
  { name := "IFC_Orphan", value := none,
    applicationInternalName := none, speckle_type := "" }

/-- A parameter with a missing value (used for the duplicate-append
example of the accumulator contract). -/
def missingParameter : Parameter :=
  { name := "Comments", value := none,
    applicationInternalName := some "guid-9", speckle_type := "" }

/-- An environment in which one parameter gets cleansed but version
creation fails (`create_new_version_in_project` returns `None`). -/
def failEnv : MainEnv :=
  { root_nodes := [{ id := "n1", parameters := some ["IFC_x", "Area"] }],
    new_version_id := none }

/-- A geometry node carrying both a truthy display value and an
element list, so that both shipped traversal rules apply to it. -/
def geometryNode : TravNode :=
  { speckle_type := "Objects.Geometry.Mesh",
    members :=
      [("displayValue", true), ("elements", true), ("name", true)] }

/-! ## General lemmas -/

theorem String.toList_eq_nil_iff {s : String} : s.toList = [] ↔ s = "" := by
  constructor
  · intro h
    cases s with
    | mk data => simpa [String.toList] using congrArg String.mk h
  · intro h
    subst h
    rfl

theorem infixCheck_eq_true_iff (needle hay : List Char) :
    infixCheck needle hay = true ↔ needle <:+: hay := by
  induction hay with
  | nil => simp [infixCheck, List.isEmpty_iff, List.infix_nil]
  | cons c rest ih =>
      simp [infixCheck, Bool.or_eq_true, List.isPrefixOf_iff_prefix, ih,
        List.infix_cons_iff]

theorem strContains_iff_infix {s sub : String} :
    strContains s sub = true ↔ sub.toList <:+: s.toList :=
  infixCheck_eq_true_iff sub.toList s.toList

theorem containsKey_eq_true_iff {g : String}
    {entries : List (String × Parameter)} :
    containsKey g entries = true ↔ ∃ e ∈ entries, e.1 = g := by
  simp [containsKey, List.any_eq_true, beq_iff_eq]

theorem containsKey_removeKey_self (g : String)
    (entries : List (String × Parameter)) :
    containsKey g (removeKey g entries) = false := by
  rw [Bool.eq_false_iff]
  intro h
  obtain ⟨e, he, hk⟩ := containsKey_eq_true_iff.mp h
  have := (List.mem_filter.mp he).2
  rw [hk] at this
  simp at this

theorem containsKey_removeKey_ne {k g : String} (hk : k ≠ g)
    (entries : List (String × Parameter)) :
    containsKey k (removeKey g entries) = containsKey k entries := by
  rw [Bool.eq_iff_iff]
  simp only [containsKey_eq_true_iff]
  constructor
  · rintro ⟨e, he, rfl⟩
    exact ⟨e, (List.mem_filter.mp he).1, rfl⟩
  · rintro ⟨e, he, rfl⟩
    refine ⟨e, List.mem_filter.mpr ⟨he, ?_⟩, rfl⟩
    simpa [bne_iff_ne] using hk

theorem lookupAffected_addAffected_self
    (m : List (String × List String)) (nid nm : String) :
    lookupAffected (addAffected m nid nm) nid =
      lookupAffected m nid ++ [nm] := by
  induction m with
  | nil => simp [addAffected, lookupAffected]
  | cons e rest ih =>
      obtain ⟨k, v⟩ := e
      by_cases h : k = nid
      · subst h
        simp [addAffected, lookupAffected]
      · simp [addAffected, lookupAffected, h, ih]

theorem lookupAffected_addAffected_other
    (m : List (String × List String)) {nid nid' : String} (nm : String)
    (h : nid' ≠ nid) :
    lookupAffected (addAffected m nid nm) nid' = lookupAffected m nid' := by
  induction m with
  | nil =>
      have h' : ¬nid = nid' := fun hx => h hx.symm
      simp [addAffected, lookupAffected, h']
  | cons e rest ih =>
      obtain ⟨k, v⟩ := e
      by_cases hk : k = nid
      · subst hk
        have h' : ¬k = nid' := fun hx => h hx.symm
        simp [addAffected, lookupAffected, h']
      · by_cases hk' : k = nid'
        · subst hk'
          simp [addAffected, lookupAffected, hk]
        · simp [addAffected, lookupAffected, hk, hk', ih]

/-! ## Lemmas for the idempotence of one removal pass -/

theorem apply_snd_base (a : PrefixRemovalAction) (p : Parameter)
    (i : String) (es : List (String × Parameter)) :
    (PrefixRemovalAction.apply a p ⟨i, ParamCollection.base es⟩).2 =
      ⟨i, ParamCollection.base (stepEntries a.forbiddenPrefix es p)⟩ := by
  by_cases hguard : p.name = "" ∨ pyStartswith p.name a.forbiddenPrefix = false
  · simp [PrefixRemovalAction.apply, stepEntries, hguard]
  · cases hap : p.applicationInternalName with
    | none => simp [PrefixRemovalAction.apply, stepEntries, hguard, hap]
    | some g =>
        by_cases hin : containsKey g es = true
        · simp [PrefixRemovalAction.apply, stepEntries, hguard, hap, hin]
        · simp [PrefixRemovalAction.apply, stepEntries, hguard, hap, hin]

theorem apply_snd_other (a : PrefixRemovalAction) (p : Parameter)
    (i : String) :
    (PrefixRemovalAction.apply a p ⟨i, ParamCollection.other⟩).2 =
      ⟨i, ParamCollection.other⟩ := by
  by_cases hguard : p.name = "" ∨ pyStartswith p.name a.forbiddenPrefix = false
  · simp [PrefixRemovalAction.apply, hguard]
  · simp [PrefixRemovalAction.apply, hguard]

theorem apply_fst_marker (a : PrefixRemovalAction) (p : Parameter)
    (o : SpeckleObject) :
    (PrefixRemovalAction.apply a p o).1.forbiddenPrefix =
      a.forbiddenPrefix := by
  obtain ⟨i, pc⟩ := o
  by_cases hguard : p.name = "" ∨ pyStartswith p.name a.forbiddenPrefix = false
  · cases pc <;> simp [PrefixRemovalAction.apply, hguard]
  · cases pc with
    | other => simp [PrefixRemovalAction.apply, hguard]
    | base es =>
        cases hap : p.applicationInternalName with
        | none => simp [PrefixRemovalAction.apply, hguard, hap]
        | some g =>
            by_cases hin : containsKey g es = true <;>
              simp [PrefixRemovalAction.apply, hguard, hap, hin]

theorem runPass_fold (l : List (String × Parameter)) :
    ∀ (a : PrefixRemovalAction) (i : String)
      (es : List (String × Parameter)),
      (l.foldl (fun s e => s.1.apply e.2 s.2)
          (a, (⟨i, ParamCollection.base es⟩ : SpeckleObject))).2 =
          ⟨i, ParamCollection.base (passEntries a.forbiddenPrefix es l)⟩ ∧
      (l.foldl (fun s e => s.1.apply e.2 s.2)
          (a, (⟨i, ParamCollection.base es⟩ : SpeckleObject))).1.forbiddenPrefix =
          a.forbiddenPrefix := by
  induction l with
  | nil => exact fun a i es => ⟨rfl, rfl⟩
  | cons e t ih =>
      intro a i es
      rcases hx : PrefixRemovalAction.apply a e.2
          ⟨i, ParamCollection.base es⟩ with ⟨a1, n1⟩
      have hn1 : n1 =
          ⟨i, ParamCollection.base (stepEntries a.forbiddenPrefix es e.2)⟩ := by
        rw [← apply_snd_base a e.2 i es, hx]
      have ha1 : a1.forbiddenPrefix = a.forbiddenPrefix := by
        rw [← apply_fst_marker a e.2 ⟨i, ParamCollection.base es⟩, hx]
      subst hn1
      have hstep : List.foldl (fun s e => s.1.apply e.2 s.2)
            (a, (⟨i, ParamCollection.base es⟩ : SpeckleObject)) (e :: t) =
          List.foldl (fun s e => s.1.apply e.2 s.2)
            (a1,
             (⟨i, ParamCollection.base (stepEntries a.forbiddenPrefix es e.2)⟩ :
               SpeckleObject)) t := by
        show List.foldl (fun s e => s.1.apply e.2 s.2)
            (PrefixRemovalAction.apply a e.2 ⟨i, ParamCollection.base es⟩) t = _
        rw [hx]
      rw [hstep]
      obtain ⟨h1, h2⟩ := ih a1 i (stepEntries a.forbiddenPrefix es e.2)
      rw [h1, h2, ha1]
      exact ⟨rfl, rfl⟩

theorem runPass_snd_base (a : PrefixRemovalAction) (i : String)
    (es : List (String × Parameter)) :
    (runPass a ⟨i, ParamCollection.base es⟩).2 =
      ⟨i, ParamCollection.base (passEntries a.forbiddenPrefix es es)⟩ :=
  (runPass_fold es a i es).1

theorem runPass_fst_marker (a : PrefixRemovalAction) (n : SpeckleObject) :
    (runPass a n).1.forbiddenPrefix = a.forbiddenPrefix := by
  obtain ⟨i, pc⟩ := n
  cases pc with
  | base es => exact (runPass_fold es a i es).2
  | other => rfl

theorem stepEntries_sublist (pre : String)
    (es : List (String × Parameter)) (p : Parameter) :
    List.Sublist (stepEntries pre es p) es := by
  unfold stepEntries
  split
  · exact List.Sublist.refl _
  · split
    · split
      · exact List.filter_sublist _
      · exact List.Sublist.refl _
    · exact List.Sublist.refl _

theorem passEntries_sublist (pre : String)
    (l : List (String × Parameter)) :
    ∀ start, List.Sublist (passEntries pre start l) start := by
  induction l with
  | nil => exact fun start => List.Sublist.refl _
  | cons e t ih =>
      intro start
      exact (ih (stepEntries pre start e.2)).trans
        (stepEntries_sublist pre start e.2)

theorem containsKey_false_of_sublist {g : String}
    {es es' : List (String × Parameter)} (hsub : List.Sublist es' es)
    (h : containsKey g es = false) : containsKey g es' = false := by
  rw [Bool.eq_false_iff] at h ⊢
  intro h'
  obtain ⟨e, he, hk⟩ := containsKey_eq_true_iff.mp h'
  exact h (containsKey_eq_true_iff.mpr ⟨e, hsub.subset he, hk⟩)

theorem stepEntries_clears {pre : String}
    {es : List (String × Parameter)} {p : Parameter} {g : String}
    (hmatch : ¬(p.name = "" ∨ pyStartswith p.name pre = false))
    (hg : p.applicationInternalName = some g) :
    containsKey g (stepEntries pre es p) = false := by
  unfold stepEntries
  rw [if_neg hmatch, hg]
  by_cases hin : containsKey g es = true
  · simp [hin, containsKey_removeKey_self]
  · simp [hin]

theorem passEntries_clears (pre : String)
    (l : List (String × Parameter)) :
    ∀ start, ∀ e ∈ l,
      ¬(e.2.name = "" ∨ pyStartswith e.2.name pre = false) →
      ∀ g, e.2.applicationInternalName = some g →
      containsKey g (passEntries pre start l) = false := by
  induction l with
  | nil => intro start e he; cases he
  | cons f t ih =>
      intro start e he hm g hg
      rcases List.mem_cons.mp he with rfl | het
      · exact containsKey_false_of_sublist
          (passEntries_sublist pre t (stepEntries pre start e.2))
          (stepEntries_clears hm hg)
      · exact ih (stepEntries pre start f.2) e het hm g hg

theorem passEntries_fix (pre : String) (l : List (String × Parameter))
    (start : List (String × Parameter))
    (hfix : ∀ e ∈ l, stepEntries pre start e.2 = start) :
    passEntries pre start l = start := by
  induction l with
  | nil => rfl
  | cons f t ih =>
      show passEntries pre (stepEntries pre start f.2) t = start
      rw [hfix f (List.mem_cons_self f t)]
      exact ih fun e he => hfix e (List.mem_cons_of_mem f he)

theorem stepEntries_noop (pre : String)
    (start : List (String × Parameter)) (p : Parameter)
    (h : ∀ g, p.applicationInternalName = some g →
         ¬(p.name = "" ∨ pyStartswith p.name pre = false) →
         containsKey g start = false) :
    stepEntries pre start p = start := by
  unfold stepEntries
  by_cases hguard : p.name = "" ∨ pyStartswith p.name pre = false
  · rw [if_pos hguard]
  · rw [if_neg hguard]
    cases hap : p.applicationInternalName with
    | none => rfl
    | some g => simp [h g hap hguard]

theorem passEntries_idem (pre : String)
    (es : List (String × Parameter)) :
    passEntries pre (passEntries pre es es) (passEntries pre es es) =
      passEntries pre es es := by
  apply passEntries_fix
  intro e he
  apply stepEntries_noop
  intro g hg hm
  exact passEntries_clears pre es es e
    ((passEntries_sublist pre es es).subset he) hm g hg

theorem runPass_node_idem (a a' : PrefixRemovalAction) (n : SpeckleObject)
    (hm : a'.forbiddenPrefix = a.forbiddenPrefix) :
    (runPass a' (runPass a n).2).2 = (runPass a n).2 := by
  obtain ⟨i, pc⟩ := n
  cases pc with
  | other => simp [runPass]
  | base es =>
      rw [runPass_snd_base a i es,
        runPass_snd_base a' i (passEntries a.forbiddenPrefix es es), hm,
        passEntries_idem]

theorem runPassGraph_fst_marker (l : List SpeckleObject) :
    ∀ a : PrefixRemovalAction,
      (runPassGraph a l).1.forbiddenPrefix = a.forbiddenPrefix := by
  induction l with
  | nil => exact fun a => rfl
  | cons n t ih =>
      intro a
      show (runPassGraph (runPass a n).1 t).1.forbiddenPrefix = _
      rw [ih, runPass_fst_marker]

theorem runPassGraph_idem_aux (l : List SpeckleObject) :
    ∀ a a' : PrefixRemovalAction,
      a'.forbiddenPrefix = a.forbiddenPrefix →
      (runPassGraph a' (runPassGraph a l).2).2 = (runPassGraph a l).2 := by
  induction l with
  | nil => intro a a' hm; rfl
  | cons n t ih =>
      intro a a' hm
      show (runPass a' (runPass a n).2).2 ::
          (runPassGraph (runPass a' (runPass a n).2).1
            (runPassGraph (runPass a n).1 t).2).2 = _
      have hn := runPass_node_idem a a' n hm
      have ha' : (runPass a' (runPass a n).2).1.forbiddenPrefix =
          (runPass a n).1.forbiddenPrefix := by
        rw [runPass_fst_marker, hm, runPass_fst_marker]
      rw [hn, ih (runPass a n).1 (runPass a' (runPass a n).2).1 ha']
      rfl

theorem lookupAffected_addAffected_cases
    (m : List (String × List String)) (nid oid nm : String) :
    lookupAffected (addAffected m oid nm) nid = lookupAffected m nid ∨
    lookupAffected (addAffected m oid nm) nid =
      lookupAffected m nid ++ [nm] := by
  by_cases h : nid = oid
  · subst h
    exact Or.inr (lookupAffected_addAffected_self m nid nm)
  · exact Or.inl (lookupAffected_addAffected_other m nm h)

theorem apply_affected_cases (a : PrefixRemovalAction) (p : Parameter)
    (o : SpeckleObject) :
    (PrefixRemovalAction.apply a p o).1.affected_parameters =
        a.affected_parameters ∨
    (PrefixRemovalAction.apply a p o).1.affected_parameters =
      addAffected a.affected_parameters o.id p.name := by
  obtain ⟨i, pc⟩ := o
  by_cases hguard : p.name = "" ∨ pyStartswith p.name a.forbiddenPrefix = false
  · cases pc <;> simp [PrefixRemovalAction.apply, hguard]
  · cases pc with
    | other => simp [PrefixRemovalAction.apply, hguard]
    | base es =>
        cases hap : p.applicationInternalName with
        | none => simp [PrefixRemovalAction.apply, hguard, hap]
        | some g =>
            by_cases hin : containsKey g es = true <;>
              simp [PrefixRemovalAction.apply, hguard, hap, hin]

/-! ## Claim theorems -/

/--
C4. Predicate correctness: for every parameter record,
`has_missing_value` returns true iff the parameter's value is
absent/null (`none`) or the empty string, and `has_default_value`
returns true iff the value equals the literal sentinel `"Default"`;
in particular `none` gives (missing, not default), `some ""` gives
(missing, not default), `some "Default"` gives (not missing, default),
and `some "42"` gives (not missing, not default).
-/
theorem predicate_rules_correct (parameter : Parameter) :
    (ParameterRules.has_missing_value parameter = true ↔
      parameter.value = none ∨ parameter.value = some "") ∧
    (ParameterRules.has_default_value parameter = true ↔
      parameter.value = some "Default") ∧
    (∀ nm ai st, ParameterRules.has_missing_value ⟨nm, none, ai, st⟩ = true ∧
      ParameterRules.has_default_value ⟨nm, none, ai, st⟩ = false ∧
      ParameterRules.has_missing_value ⟨nm, some "", ai, st⟩ = true ∧
      ParameterRules.has_default_value ⟨nm, some "", ai, st⟩ = false ∧
      ParameterRules.has_missing_value ⟨nm, some "Default", ai, st⟩ = false ∧
      ParameterRules.has_default_value ⟨nm, some "Default", ai, st⟩ = true ∧
      ParameterRules.has_missing_value ⟨nm, some "42", ai, st⟩ = false ∧
      ParameterRules.has_default_value ⟨nm, some "42", ai, st⟩ = false) := by
  refine ⟨?_, ?_, ?_⟩
  · cases h : parameter.value with
    | none => simp [ParameterRules.has_missing_value, h]
    | some s => simp [ParameterRules.has_missing_value, h]
  · simp [ParameterRules.has_default_value]
  · intro nm ai st
    refine ⟨rfl, rfl, ?_, ?_, ?_, ?_, ?_, ?_⟩ <;>
      simp [ParameterRules.has_missing_value, ParameterRules.has_default_value]

/--
C5 counterexample. The claim "`forbidden_prefix_rule` returns true iff
the name is non-empty and starts with the prefix" fails on the code: at
the empty name and the empty marker string, the rule returns `true`
(Python's `"".startswith("")` is `True`) although the name is empty.
-/
theorem forbidden_prefix_rule_empty_name_counterexample :
    ParameterRules.forbidden_prefix_rule ""
      { name := "", value := none, applicationInternalName := none,
        speckle_type := "" } = true ∧
    ({ name := "", value := none, applicationInternalName := none,
        speckle_type := "" } : Parameter).name = "" := by
  exact ⟨rfl, rfl⟩

/--
C5 amended. `forbidden_prefix_rule(given_prefix)` returns true iff the
parameter's name starts with the given marker, case-sensitively and
codepoint-exactly; the name is not required to be non-empty, but
whenever the marker itself is non-empty the rule is equivalent to the
name being non-empty and starting with the marker.
-/
theorem forbidden_prefix_rule_characterization (g : String)
    (parameter : Parameter) :
    (ParameterRules.forbidden_prefix_rule g parameter = true ↔
      g.toList <+: parameter.name.toList) ∧
    (g ≠ "" →
      (ParameterRules.forbidden_prefix_rule g parameter = true ↔
        parameter.name ≠ "" ∧ g.toList <+: parameter.name.toList)) := by
  have hmain : ParameterRules.forbidden_prefix_rule g parameter = true ↔
      g.toList <+: parameter.name.toList := by
    simp [ParameterRules.forbidden_prefix_rule, pyStartswith]
  refine ⟨hmain, fun hg => ?_⟩
  rw [hmain]
  constructor
  · intro hpre
    refine ⟨?_, hpre⟩
    intro hnil
    rw [hnil] at hpre
    have : g.toList = [] := by
      simpa [String.toList] using List.prefix_nil.mp (by simpa using hpre)
    exact hg (String.toList_eq_nil_iff.mp this)
  · exact fun h => h.2

/-- C5 amended, witness at marker `"IFC_"` and name `"IFC_Category"`. -/
theorem forbidden_prefix_rule_characterization_witness :
    ("IFC_" : String) ≠ "" ∧
    (ParameterRules.forbidden_prefix_rule "IFC_" ifcParameter = true ↔
      ifcParameter.name ≠ "" ∧
      ("IFC_" : String).toList <+: ifcParameter.name.toList) :=
  ⟨by decide,
   (forbidden_prefix_rule_characterization "IFC_" ifcParameter).2 (by decide)⟩

/--
C7. Configuration error handling: with an empty
`forbidden_parameter_prefix` the run fails immediately with
"No prefix has been set." — the event trace holds no `receiveVersion`
(the root object is never fetched), no traversal or mutation happens,
and the environment's nodes are returned untouched.
-/
theorem config_error_fails_before_traversal (env : MainEnv) :
    automate_function "" env =
      ([RunEvent.markFailed "No prefix has been set."], env.root_nodes) := by
  simp [automate_function]

/--
C1. End-to-end removal scenario: on a root node whose collection maps
`"guid-1"` to the parameter named `"IFC_Category"` with
`applicationInternalName "guid-1"` and value `"Wall"`, one pass of
`PrefixRemovalAction("IFC_")` empties the collection (in particular the
key `"guid-1"` is gone), the affected report under the owning node's id
is exactly `["IFC_Category"]`, and `report` yields exactly one
`Removed_Parameters` sink message mentioning `"IFC_Category"`.
-/
theorem end_to_end_removal_scenario :
    (runPass ifcAction ifcNode).2 =
      { id := "node-1", parameters := ParamCollection.base [] } ∧
    containsKey "guid-1"
      (removeKey "guid-1" [("guid-1", ifcParameter)]) = false ∧
    lookupAffected (runPass ifcAction ifcNode).1.affected_parameters
      "node-1" = ["IFC_Category"] ∧
    (runPass ifcAction ifcNode).1.report =
      [{ category := "Removed_Parameters", object_ids := ["node-1"],
         message := "The following parameters were removed: IFC_Category" }] ∧
    strContains "The following parameters were removed: IFC_Category"
      "IFC_Category" = true := by
  refine ⟨?_, ?_, ?_, ?_, ?_⟩ <;> decide

/--
C2. Removal by the secondary key: when the parameter's name is
non-empty and starts with the forbidden marker, the collection is a
`Base` whose entries contain the parameter's
`applicationInternalName = g`, `apply` pops exactly the entry under the
secondary key `g` (every other key's presence is untouched, so the
parameter's own primary key is not what is removed), and appends the
parameter's name to the per-node affected list under the owner's id.
-/
theorem removal_by_secondary_key (action : PrefixRemovalAction)
    (parameter : Parameter) (entries : List (String × Parameter))
    (o : SpeckleObject) (g : String)
    (hname : parameter.name ≠ "")
    (hpre : pyStartswith parameter.name action.forbiddenPrefix = true)
    (hcoll : o.parameters = ParamCollection.base entries)
    (hsec : parameter.applicationInternalName = some g)
    (hin : containsKey g entries = true) :
    PrefixRemovalAction.apply action parameter o =
      ({ action with
          affected_parameters :=
            addAffected action.affected_parameters o.id parameter.name },
       { o with parameters := ParamCollection.base (removeKey g entries) }) ∧
    containsKey g (removeKey g entries) = false ∧
    (∀ k, k ≠ g →
      containsKey k (removeKey g entries) = containsKey k entries) ∧
    lookupAffected
        (addAffected action.affected_parameters o.id parameter.name) o.id =
      lookupAffected action.affected_parameters o.id ++ [parameter.name] := by
  refine ⟨?_, containsKey_removeKey_self g entries,
    fun k hk => containsKey_removeKey_ne hk entries,
    lookupAffected_addAffected_self _ _ _⟩
  have hguard :
      ¬(parameter.name = "" ∨
        pyStartswith parameter.name action.forbiddenPrefix = false) := by
    push_neg
    exact ⟨hname, by simp [hpre]⟩
  simp [PrefixRemovalAction.apply, hguard, hcoll, hsec, hin]

/-- C2, witness on the end-to-end scenario data. -/
theorem removal_by_secondary_key_witness :
    ifcParameter.name ≠ "" ∧
    pyStartswith ifcParameter.name ifcAction.forbiddenPrefix = true ∧
    containsKey "guid-1" [("guid-1", ifcParameter)] = true ∧
    PrefixRemovalAction.apply ifcAction ifcParameter ifcNode =
      ({ ifcAction with
          affected_parameters :=
            addAffected ifcAction.affected_parameters ifcNode.id
              ifcParameter.name },
       { ifcNode with
          parameters :=
            ParamCollection.base
              (removeKey "guid-1" [("guid-1", ifcParameter)]) }) :=
  ⟨by decide, by decide, by decide,
   (removal_by_secondary_key ifcAction ifcParameter
     [("guid-1", ifcParameter)] ifcNode "guid-1"
     (by decide) (by decide) rfl rfl (by decide)).1⟩

/--
C6. Silent-skip atomicity: whenever removal cannot be performed — the
parameter lacks its `applicationInternalName`, the collection is not of
the expected `Base` shape, or the secondary key is absent from the
collection — `apply` is a total function returning its inputs
untouched: the graph is unchanged and nothing is recorded in
`affected_parameters` (the source swallows the `KeyError` and guards
the membership and `isinstance` checks, so no exception escapes).
-/
theorem silent_skip_no_op (action : PrefixRemovalAction)
    (parameter : Parameter) (o : SpeckleObject)
    (h : parameter.applicationInternalName = none ∨
         o.parameters = ParamCollection.other ∨
         (∃ entries g, o.parameters = ParamCollection.base entries ∧
            parameter.applicationInternalName = some g ∧
            containsKey g entries = false)) :
    PrefixRemovalAction.apply action parameter o = (action, o) := by
  by_cases hguard :
      parameter.name = "" ∨
        pyStartswith parameter.name action.forbiddenPrefix = false
  · simp [PrefixRemovalAction.apply, hguard]
  · rcases h with hnone | hother | ⟨entries, g, hcoll, hsec, hout⟩
    · rcases hpc : o.parameters with entries | _ <;>
        simp [PrefixRemovalAction.apply, hguard, hpc, hnone]
    · simp [PrefixRemovalAction.apply, hguard, hother]
    · simp [PrefixRemovalAction.apply, hguard, hcoll, hsec, hout]

/-- C6, witness: a prefixed parameter lacking its secondary key leaves
action state and node untouched. -/
theorem silent_skip_no_op_witness :
    orphanParameter.applicationInternalName = none ∧
    PrefixRemovalAction.apply ifcAction orphanParameter ifcNode =
      (ifcAction, ifcNode) :=
  ⟨rfl, silent_skip_no_op ifcAction orphanParameter ifcNode (Or.inl rfl)⟩

/--
C3. Idempotence of `PrefixRemovalAction`: for every graph (its visited
nodes in order) and every starting action state, a second pass — run
with the action state produced by the first pass — leaves the graph of
the first pass unchanged: the second pass finds nothing left to
remove.
-/
theorem prefix_removal_idempotent (a : PrefixRemovalAction)
    (nodes : List SpeckleObject) :
    (runPassGraph (runPassGraph a nodes).1 (runPassGraph a nodes).2).2 =
      (runPassGraph a nodes).2 :=
  runPassGraph_idem_aux nodes a (runPassGraph a nodes).1
    (runPassGraph_fst_marker nodes a)

/--
C8. Version-submission failure handling: every run emits exactly one
run-outcome signal (`mark_run_success` or `mark_run_failed`); and
whenever cleansing occurred but `create_new_version_in_project`
returns `None`, the trace is exactly receive, one version-creation
attempt (no retry), and `mark_run_failed("Failed to create new
version.")` — in particular `mark_run_success` is never invoked in
such a run.
-/
theorem version_failure_handling :
    (∀ pre env,
      ((automate_function pre env).1.filter isRunMark).length = 1) ∧
    (∀ pre env, pre ≠ "" → env.new_version_id = none →
      (cleansePass pre env.root_nodes []).2 ≠ [] →
      (automate_function pre env).1 =
        [RunEvent.receiveVersion, RunEvent.createVersion,
         RunEvent.markFailed "Failed to create new version."]) := by
  constructor
  · intro pre env
    unfold automate_function
    by_cases h : pre = ""
    · simp [h, isRunMark]
    · by_cases h2 : (cleansePass pre env.root_nodes []).2 = []
      · simp [h, h2, isRunMark]
      · cases hv : env.new_version_id <;> simp [h, h2, hv, isRunMark]
  · intro pre env h hv h2
    unfold automate_function
    simp [h, h2, hv]

/-- C8, witness: a run that cleanses one parameter and whose version
submission returns `None` yields exactly the failed trace. -/
theorem version_failure_handling_witness :
    ("IFC_" : String) ≠ "" ∧
    (cleansePass "IFC_" failEnv.root_nodes []).2 ≠ [] ∧
    (automate_function "IFC_" failEnv).1 =
      [RunEvent.receiveVersion, RunEvent.createVersion,
       RunEvent.markFailed "Failed to create new version."] :=
  ⟨by decide, by decide,
   version_failure_handling.2 "IFC_" failEnv (by decide) rfl (by decide)⟩

/--
C9. Display-geometry rule and precedence: the rule applies exactly
when the node has a truthy member under `displayValue` or
`@displayValue` and its type tag contains the substring `"Geometry"`;
its selector yields only `elements`/`@elements` (never a display-value
alias); and since the rule precedes the catch-all default rule, a node
matching it — which also matches the always-true default rule — is
descended through the display-geometry selector exclusively.
-/
theorem display_geometry_rule_and_precedence (o : TravNode) :
    (ruleMatches display_value_rule o = true ↔
      ((o.members.lookup "displayValue").getD false = true ∨
       (o.members.lookup "@displayValue").getD false = true) ∧
      "Geometry".toList <:+: o.speckle_type.toList) ∧
    display_value_rule.selector o = ["elements", "@elements"] ∧
    "displayValue" ∉ display_value_rule.selector o ∧
    "@displayValue" ∉ display_value_rule.selector o ∧
    ruleMatches default_rule o = true ∧
    (ruleMatches display_value_rule o = true →
      selectedMembers get_default_traversal_func o =
        ["elements", "@elements"]) := by
  refine ⟨?_, rfl, ?_, ?_, rfl, ?_⟩
  · simp [ruleMatches, display_value_rule, display_value_property_aliases,
      getattrTruthy, strContains_iff_infix]
  · simp [display_value_rule, elements_property_aliases]
  · simp [display_value_rule, elements_property_aliases]
  · intro h
    have hsel : selectRule get_default_traversal_func o =
        some display_value_rule := by
      simp [selectRule, get_default_traversal_func, h]
    simp [selectedMembers, hsel, display_value_rule, elements_property_aliases]

/-- C9, witness: a geometry node with truthy display value is selected
by the display-geometry rule and descends only into the element
aliases. -/
theorem display_geometry_rule_and_precedence_witness :
    ruleMatches display_value_rule geometryNode = true ∧
    selectedMembers get_default_traversal_func geometryNode =
      ["elements", "@elements"] :=
  ⟨by decide,
   (display_geometry_rule_and_precedence geometryNode).2.2.2.2.2 (by decide)⟩

/--
C10. Accumulator contract shared by all three actions: one `apply`
call either leaves every per-node affected list unchanged or extends
exactly one of them by appending the parameter's name at the end
(never removing or reordering); the same name can be appended twice
under one node (shown on a concrete double apply); and uniqueness is
imposed only at report time — the reported name set is duplicate-free
and contains exactly the recorded names.
-/
theorem accumulator_contract :
    (∀ (a : PrefixRemovalAction) (p : Parameter) (o : SpeckleObject)
        (nid : String),
      lookupAffected (PrefixRemovalAction.apply a p o).1.affected_parameters
          nid = lookupAffected a.affected_parameters nid ∨
      lookupAffected (PrefixRemovalAction.apply a p o).1.affected_parameters
          nid = lookupAffected a.affected_parameters nid ++ [p.name]) ∧
    (∀ (a : MissingValueReportAction) (p : Parameter) (o : SpeckleObject)
        (nid : String),
      lookupAffected (MissingValueReportAction.apply a p o).affected_parameters
          nid = lookupAffected a.affected_parameters nid ∨
      lookupAffected (MissingValueReportAction.apply a p o).affected_parameters
          nid = lookupAffected a.affected_parameters nid ++ [p.name]) ∧
    (∀ (a : DefaultValueMutationAction) (p : Parameter) (o : SpeckleObject)
        (nid : String),
      lookupAffected
          (DefaultValueMutationAction.apply a p o).1.affected_parameters nid =
        lookupAffected a.affected_parameters nid ∨
      lookupAffected
          (DefaultValueMutationAction.apply a p o).1.affected_parameters nid =
        lookupAffected a.affected_parameters nid ++ [p.name]) ∧
    lookupAffected
      (MissingValueReportAction.apply
        (MissingValueReportAction.apply ⟨[]⟩ missingParameter ifcNode)
        missingParameter ifcNode).affected_parameters ifcNode.id =
      ["Comments", "Comments"] ∧
    (∀ m : List (String × List String),
      (uniqueNames m).Nodup ∧
      ∀ nm, nm ∈ uniqueNames m ↔ nm ∈ (m.map Prod.snd).flatten) := by
  refine ⟨?_, ?_, ?_, by decide, ?_⟩
  · intro a p o nid
    rcases apply_affected_cases a p o with h | h <;> rw [h]
    · exact Or.inl rfl
    · exact lookupAffected_addAffected_cases a.affected_parameters nid o.id
        p.name
  · intro a p o nid
    by_cases h : ParameterRules.has_missing_value p = true
    · simp only [MissingValueReportAction.apply, if_pos h]
      exact lookupAffected_addAffected_cases a.affected_parameters nid o.id
        p.name
    · simp [MissingValueReportAction.apply, h]
  · intro a p o nid
    by_cases h : ParameterRules.has_default_value p = true
    · simp only [DefaultValueMutationAction.apply, if_pos h]
      exact lookupAffected_addAffected_cases a.affected_parameters nid o.id
        p.name
    · simp [DefaultValueMutationAction.apply, h]
  · intro m
    exact ⟨List.nodup_dedup _, fun nm => List.mem_dedup⟩

end DeepClean
